import Mathlib

/-!
# Verification of `regenerate_templates.py`

A shallow embedding of the template-embedding script `regenerate_templates.py`.
The script reads three template files and one target file, replaces (via
`re.sub` with pattern `const <NAME>_TEMPLATE_LIB: &str = r#".*?"#;`, flag
`re.DOTALL`) each matching region of the target by a freshly built declaration
whose payload is the template text, writes the target back and prints a report.

Texts are modelled as `List Char`.  The non-greedy leftmost-match semantics of
`re.sub` is modelled by an explicit left-to-right scan (`substAll`), and the
replacement-template escape processing that Python applies to the replacement
string (`\n` becomes a newline, `\g<0>` the whole match, unknown letter
escapes raise, ...) is modelled by `parseTemplate` / `expandT`.
-/

/-- The three template names of the script. -/
inductive TName where
  | basic
  | timelock
  | weighted
deriving DecidableEq

/-- The literal part of the pattern before `.*?`, and also the prefix of the
replacement built by the f-string: `const <NAME>_TEMPLATE_LIB: &str = r#"`. -/
def openerOf : TName → List Char
  | .basic => "const BASIC_TEMPLATE_LIB: &str = r#\"".toList
  | .timelock => "const TIMELOCK_TEMPLATE_LIB: &str = r#\"".toList
  | .weighted => "const WEIGHTED_TEMPLATE_LIB: &str = r#\"".toList

/-- The literal part of the pattern after `.*?`, namely `"#;`. -/
def closerStr : List Char := "\"#;".toList

/-- One piece of a compiled `re.sub` replacement template: a literal character
or a reference to group 0 (the whole match). -/
inductive TplItem where
  | ch (c : Char)
  | group0
deriving DecidableEq

/-- Expand a compiled replacement template against a concrete match text. -/
def expandT : List TplItem → List Char → List Char
  | [], _ => []
  | TplItem.ch c :: rest, m => c :: expandT rest m
  | TplItem.group0 :: rest, m => m ++ expandT rest m

/-- The compiled template of a replacement string containing no escapes. -/
def constTpl (s : List Char) : List TplItem := s.map TplItem.ch

/-- The simple escapes of `re`'s replacement templates (`sre_parse.ESCAPES`). -/
def escChar (c : Char) : Option Char :=
  if c = 'a' then some (Char.ofNat 7)
  else if c = 'b' then some (Char.ofNat 8)
  else if c = 'f' then some (Char.ofNat 12)
  else if c = 'n' then some (Char.ofNat 10)
  else if c = 'r' then some (Char.ofNat 13)
  else if c = 't' then some (Char.ofNat 9)
  else if c = 'v' then some (Char.ofNat 11)
  else if c = '\\' then some '\\'
  else none

/-- Octal digit test. -/
def isOct (c : Char) : Bool := decide ('0' ≤ c) && decide (c ≤ '7')

/-- Value of an octal digit. -/
def octVal (c : Char) : Nat := c.toNat - '0'.toNat

/-- Scan a `\g<...>` group name up to the closing `>`. -/
def readGroupName : List Char → Option (List Char × List Char)
  | [] => none
  | c :: rest =>
      if c = '>' then some ([], rest)
      else
        match readGroupName rest with
        | some (nm, after) => some (c :: nm, after)
        | none => none

/-- Fuelled parser for `re.sub` replacement templates over a pattern with no
capture groups: simple escapes are mapped, `\0`-led (or three-digit) octal
escapes become characters, any group reference other than group `0` is an
error (the pattern has no groups), unknown ASCII-letter escapes are errors,
and a backslash before any other character is kept literally. -/
def parseTemplateF : Nat → List Char → Option (List TplItem)
  | _, [] => some []
  | 0, _ :: _ => none
  | fuel + 1, c :: rest =>
    if c = '\\' then
      match rest with
      | [] => none
      | d :: rest2 =>
        match escChar d with
        | some e => (parseTemplateF fuel rest2).map (fun l => TplItem.ch e :: l)
        | none =>
          if d = 'g' then
            match rest2 with
            | [] => none
            | lt :: rest3 =>
              if lt = '<' then
                match readGroupName rest3 with
                | none => none
                | some (nm, after) =>
                  if nm.isEmpty then none
                  else if nm.all Char.isDigit then
                    if nm.all (fun x => x == '0') then
                      (parseTemplateF fuel after).map (fun l => TplItem.group0 :: l)
                    else none
                  else none
              else none
          else if d.isDigit then
            if d = '0' then
              match rest2 with
              | [] => some [TplItem.ch (Char.ofNat 0)]
              | d1 :: rest3 =>
                if isOct d1 then
                  match rest3 with
                  | [] => some [TplItem.ch (Char.ofNat (octVal d1))]
                  | d2 :: rest4 =>
                    if isOct d2 then
                      (parseTemplateF fuel rest4).map
                        (fun l => TplItem.ch (Char.ofNat (octVal d1 * 8 + octVal d2)) :: l)
                    else
                      (parseTemplateF fuel rest3).map
                        (fun l => TplItem.ch (Char.ofNat (octVal d1)) :: l)
                else (parseTemplateF fuel rest2).map (fun l => TplItem.ch (Char.ofNat 0) :: l)
            else
              match rest2 with
              | d1 :: d2 :: rest3 =>
                if isOct d && isOct d1 && isOct d2 then
                  if octVal d * 64 + octVal d1 * 8 + octVal d2 ≤ 255 then
                    (parseTemplateF fuel rest3).map
                      (fun l =>
                        TplItem.ch (Char.ofNat (octVal d * 64 + octVal d1 * 8 + octVal d2)) :: l)
                  else none
                else none
              | _ => none
          else if d.isAlpha then none
          else (parseTemplateF fuel rest2).map (fun l => TplItem.ch '\\' :: TplItem.ch d :: l)
    else (parseTemplateF fuel rest).map (fun l => TplItem.ch c :: l)

/-- Compile a replacement string, as `re.sub` does before scanning. -/
def parseTemplate (s : List Char) : Option (List TplItem) := parseTemplateF s.length s

/-- Find the first occurrence of `cl` in a text; return the part before it and
the part after it.  This is how the non-greedy `.*?"#;` selects the earliest
closing delimiter after the opener. -/
def findClose (cl : List Char) : List Char → Option (List Char × List Char)
  | [] => if cl.isPrefixOf ([] : List Char) then some ([], []) else none
  | c :: t =>
      if cl.isPrefixOf (c :: t) then some ([], (c :: t).drop cl.length)
      else
        match findClose cl t with
        | some p => some (c :: p.1, p.2)
        | none => none

/-- Fuelled left-to-right scan of `re.sub`: at each position, if the literal
opener matches and a closing delimiter occurs later, the shortest such match
is replaced by the expanded replacement template and the scan resumes after
the match; otherwise the scan advances one character. -/
def substAllF (op cl : List Char) (tpl : List TplItem) : Nat → List Char → List Char
  | 0, s => s
  | fuel + 1, s =>
    if op.isPrefixOf s then
      match findClose cl (s.drop op.length) with
      | some (a, rest) => expandT tpl (op ++ a ++ cl) ++ substAllF op cl tpl fuel rest
      | none => s
    else
      match s with
      | [] => []
      | c :: t => c :: substAllF op cl tpl fuel t

/-- The full scan of `re.sub` over the whole text (replace every
non-overlapping match, leftmost first, non-greedy). -/
def substAll (op cl : List Char) (tpl : List TplItem) (s : List Char) : List Char :=
  substAllF op cl tpl s.length s

/-- The replacement string built by the script's f-string for one name. -/
def replString (n : TName) (tmpl : List Char) : List Char :=
  openerOf n ++ tmpl ++ closerStr

/-- One `re.sub` call of the script: compile the replacement string, then
substitute every match of the name's pattern in the target text.  `none`
models the `re.error` raised on a bad replacement escape. -/
def applyTemplate (n : TName) (tmpl : List Char) (content : List Char) : Option (List Char) :=
  match parseTemplate (replString n tmpl) with
  | none => none
  | some tpl => some (substAll (openerOf n) closerStr tpl content)

/-- Fixed input paths of the script. -/
def basicPath : String := "templates/basic/contract/src/lib.rs"

def timelockPath : String := "templates/timelock/contract/src/lib.rs"

def weightedPath : String := "templates/weighted/contract/src/lib.rs"

def targetPath : String := "cli/src/commands/init.rs"

/-- Observable events of one run: file reads (with success flag), file
writes, and lines printed to standard output. -/
inductive Event where
  | readEv (path : String) (ok : Bool)
  | writeEv (path : String) (content : List Char)
  | printEv (line : String)
deriving DecidableEq

/-- The success message printed by the script. -/
def successMsg : String := "✅ CLI templates regenerated successfully!"

/-- One byte-count report line of the script. -/
def reportLine (label : String) (n : Nat) : String :=
  "  " ++ label ++ " template: " ++ toString n ++ " bytes"

/-- Overwrite one path of a file system. -/
def updateFS (fs : String → Option (List Char)) (p : String) (c : List Char) :
    String → Option (List Char) :=
  fun q => if q = p then some c else fs q

/-- The whole script, as a function from the file system (a map from paths to
optional text contents) to the event trace and the resulting file system.
Reads happen in source order (basic, timelock, weighted templates, then the
target); a failed read aborts the run; then the three substitutions run in
order (an `re.error` aborts); on success the target file is written once and
the report is printed. -/
def runScript (fs : String → Option (List Char)) :
    List Event × (String → Option (List Char)) :=
  match fs basicPath with
  | none => ([Event.readEv basicPath false], fs)
  | some b =>
    match fs timelockPath with
    | none => ([Event.readEv basicPath true, Event.readEv timelockPath false], fs)
    | some t =>
      match fs weightedPath with
      | none =>
          ([Event.readEv basicPath true, Event.readEv timelockPath true,
            Event.readEv weightedPath false], fs)
      | some w =>
        match fs targetPath with
        | none =>
            ([Event.readEv basicPath true, Event.readEv timelockPath true,
              Event.readEv weightedPath true, Event.readEv targetPath false], fs)
        | some cli =>
          match applyTemplate TName.basic b cli with
          | none =>
              ([Event.readEv basicPath true, Event.readEv timelockPath true,
                Event.readEv weightedPath true, Event.readEv targetPath true], fs)
          | some c1 =>
            match applyTemplate TName.timelock t c1 with
            | none =>
                ([Event.readEv basicPath true, Event.readEv timelockPath true,
                  Event.readEv weightedPath true, Event.readEv targetPath true], fs)
            | some c2 =>
              match applyTemplate TName.weighted w c2 with
              | none =>
                  ([Event.readEv basicPath true, Event.readEv timelockPath true,
                    Event.readEv weightedPath true, Event.readEv targetPath true], fs)
              | some c3 =>
                  ([Event.readEv basicPath true, Event.readEv timelockPath true,
                    Event.readEv weightedPath true, Event.readEv targetPath true,
                    Event.writeEv targetPath c3,
                    Event.printEv successMsg,
                    Event.printEv (reportLine "Basic" b.length),
                    Event.printEv (reportLine "Timelock" t.length),
                    Event.printEv (reportLine "Weighted" w.length)],
                   updateFS fs targetPath c3)

/-- No match of the opener starts inside the chunk `c` when the text
continues with `X`. -/
def notTouch (op c X : List Char) : Prop :=
  ∀ j, j < c.length → ¬ op <+: (c.drop j ++ X)

instance notTouch_dec (op c X : List Char) : Decidable (notTouch op c X) := by
  unfold notTouch
  infer_instance

/-- The target text contains a match for the pattern with literal opener `op`
and literal closer `cl`: an occurrence of the opener with an occurrence of
the closer somewhere at or after the opener's end. -/
def hasMatch (op cl s : List Char) : Prop :=
  ∃ pre a post, s = pre ++ op ++ a ++ cl ++ post

/-! ## Structured target documents -/

/-- One segment of a target document: literal text followed by one embedded
declaration `const <NAME>_TEMPLATE_LIB: &str = r#"<payload>"#;`. -/
structure DocEntry where
  txt : List Char
  name : TName
  payload : List Char
deriving DecidableEq

/-- Render a list of segments followed by trailing text into the target
document's character sequence. -/
def renderEntries : List DocEntry → List Char → List Char
  | [], tf => tf
  | e :: es, tf =>
      e.txt ++ (openerOf e.name ++ (e.payload ++ (closerStr ++ renderEntries es tf)))

/-- No opener string occurs in `l`. -/
def noOpeners (l : List Char) : Prop :=
  ¬ openerOf TName.basic <:+: l ∧ ¬ openerOf TName.timelock <:+: l ∧
    ¬ openerOf TName.weighted <:+: l

instance noOpeners_dec (l : List Char) : Decidable (noOpeners l) := by
  unfold noOpeners
  infer_instance

/-- Well-formedness of one segment: no opener hides in the literal text, no
opener ends against the payload's closing quote, and the payload does not
contain the closing delimiter. -/
def WFentry (e : DocEntry) : Prop :=
  noOpeners e.txt ∧ noOpeners (e.payload ++ ['"']) ∧ ¬ closerStr <:+: e.payload

instance WFentry_dec (e : DocEntry) : Decidable (WFentry e) := by
  unfold WFentry
  infer_instance

/-- Well-formedness of a structured document. -/
def WFdoc (es : List DocEntry) (tf : List Char) : Prop :=
  (∀ e ∈ es, WFentry e) ∧ noOpeners tf

instance WFdoc_dec (es : List DocEntry) (tf : List Char) : Decidable (WFdoc es tf) := by
  unfold WFdoc
  infer_instance

/-- Replace the payload of every declaration named `n`. -/
def mapN (n : TName) (p : List Char) (es : List DocEntry) : List DocEntry :=
  es.map fun e => if e.name = n then { e with payload := p } else e

/-! ## Auxiliary observation predicates and concrete fixtures -/

/-- Is the event a file write? -/
def isWriteEv : Event → Bool
  | Event.writeEv _ _ => true
  | _ => false

/-- Holds exactly when no line is printed before the first file write. -/
def noPrintBeforeWrite : List Event → Bool
  | [] => true
  | Event.printEv _ :: _ => false
  | Event.writeEv _ _ :: _ => true
  | Event.readEv _ _ :: rest => noPrintBeforeWrite rest

/-- A file system whose basic template holds the two characters `\` `n`. -/
def fsC1 : String → Option (List Char) := fun p =>
  if p = basicPath then some ['\\', 'n']
  else if p = timelockPath then some ['T']
  else if p = weightedPath then some ['W']
  else if p = targetPath then
    some ("const BASIC_TEMPLATE_LIB: &str = r#\"OLD\"#;").toList
  else none

/-- A file system whose basic template contains the closing delimiter. -/
def fsC2 : String → Option (List Char) := fun p =>
  if p = basicPath then some ("A\"#;B").toList
  else if p = timelockPath then some ['T']
  else if p = weightedPath then some ['W']
  else if p = targetPath then
    some ("const BASIC_TEMPLATE_LIB: &str = r#\"OLD\"#;").toList
  else none

/-- A well-behaved concrete target document with one region per name. -/
def docOK : List Char :=
  ("const BASIC_TEMPLATE_LIB: &str = r#\"OB\"#;\n" ++
   "const TIMELOCK_TEMPLATE_LIB: &str = r#\"OT\"#;\n" ++
   "const WEIGHTED_TEMPLATE_LIB: &str = r#\"OW\"#;\n").toList

/-- A well-behaved concrete file system on which the run succeeds. -/
def fsOK : String → Option (List Char) := fun p =>
  if p = basicPath then some ['F', 'B']
  else if p = timelockPath then some ['F', 'T']
  else if p = weightedPath then some ['F', 'W']
  else if p = targetPath then some docOK
  else none

/-- A structured well-formed document used as idempotence witness data. -/
def esW : List DocEntry :=
  [⟨("x ").toList, TName.basic, ("OB").toList⟩,
   ⟨("\n").toList, TName.timelock, ("OT").toList⟩,
   ⟨("\n").toList, TName.weighted, ("OW").toList⟩]

/-- Trailing text of the idempotence witness document. -/
def tfW : List Char := ("\n").toList

/-- File system of the idempotence witness. -/
def fsW : String → Option (List Char) := fun p =>
  if p = basicPath then some (("NB").toList)
  else if p = timelockPath then some (("NT").toList)
  else if p = weightedPath then some (("NW").toList)
  else if p = targetPath then some (renderEntries esW tfW)
  else none

/-! ## Basic facts about the delimiters -/

lemma openerOf_ne_nil (n : TName) : openerOf n ≠ [] := by cases n <;> decide

lemma closerStr_eq : closerStr = ['"', '#', ';'] := rfl

/-- Bridge between the Boolean prefix test and the prefix relation. -/
lemma pfxOf_true {op l : List Char} : op.isPrefixOf l = true ↔ op <+: l :=
  List.isPrefixOf_iff_prefix

lemma pfxOf_false {op l : List Char} : op.isPrefixOf l = false ↔ ¬ op <+: l := by
  rw [← pfxOf_true]
  exact Bool.eq_false_iff

/-! ## Soundness of the closing-delimiter search -/

lemma findClose_sound {cl : List Char} :
    ∀ {l a r : List Char}, findClose cl l = some (a, r) → l = a ++ cl ++ r := by
  intro l
  induction l with
  | nil =>
    intro a r h
    unfold findClose at h
    by_cases hp : cl.isPrefixOf ([] : List Char)
    · rw [if_pos hp] at h
      have hcl : cl = [] := List.prefix_nil.mp (pfxOf_true.mp hp)
      cases h
      simp [hcl]
    · rw [if_neg hp] at h
      exact Option.noConfusion h
  | cons c t ih =>
    intro a r h
    unfold findClose at h
    by_cases hp : cl.isPrefixOf (c :: t)
    · rw [if_pos hp] at h
      obtain ⟨u, hu⟩ := pfxOf_true.mp hp
      cases h
      rw [← hu, List.drop_left, List.nil_append]
    · rw [if_neg hp] at h
      cases hfc : findClose cl t with
      | none => rw [hfc] at h; exact Option.noConfusion h
      | some p =>
        rw [hfc] at h
        obtain ⟨a', r'⟩ := p
        dsimp only at h
        cases h
        have ht := ih hfc
        simp [ht, List.append_assoc]

lemma findClose_len {cl l a r : List Char} (h : findClose cl l = some (a, r)) :
    r.length ≤ l.length := by
  have hs := findClose_sound h
  rw [hs]
  simp
  omega

lemma findClose_none {cl : List Char} :
    ∀ {l : List Char}, findClose cl l = none → ∀ a r, l ≠ a ++ cl ++ r := by
  intro l
  induction l with
  | nil =>
    intro h a r heq
    have h1 : a = [] ∧ cl ++ r = [] := by simpa using heq.symm
    have h2 : cl = [] ∧ r = [] := by simpa using h1.2
    unfold findClose at h
    rw [h2.1] at h
    simp [List.isPrefixOf] at h
  | cons c t ih =>
    intro h a r heq
    unfold findClose at h
    by_cases hp : cl.isPrefixOf (c :: t)
    · rw [if_pos hp] at h
      exact Option.noConfusion h
    · rw [if_neg hp] at h
      cases a with
      | nil =>
        apply hp
        refine pfxOf_true.mpr ⟨r, ?_⟩
        rw [heq]
        simp
      | cons a0 a' =>
        have heq2 : c :: t = a0 :: (a' ++ (cl ++ r)) := by simpa [List.append_assoc] using heq
        have hc2 : t = a' ++ cl ++ r := by
          have hinj := (List.cons.injEq c t a0 (a' ++ (cl ++ r))).mp heq2
          rw [hinj.2, List.append_assoc]
        cases hfc : findClose cl t with
        | none => exact ih hfc a' r hc2
        | some p => rw [hfc] at h; exact Option.noConfusion h

/-! ## Fuel irrelevance and step lemmas for the substitution scan -/

lemma isPrefixOf_nil_false {op : List Char} (hop : op ≠ []) :
    op.isPrefixOf ([] : List Char) = false := by
  cases op with
  | nil => exact absurd rfl hop
  | cons c t => rfl

lemma substAllF_succ (op cl : List Char) (tpl : List TplItem) (fuel : Nat) (s : List Char) :
    substAllF op cl tpl (fuel + 1) s =
      if op.isPrefixOf s then
        match findClose cl (s.drop op.length) with
        | some (a, rest) => expandT tpl (op ++ a ++ cl) ++ substAllF op cl tpl fuel rest
        | none => s
      else
        match s with
        | [] => []
        | c :: t => c :: substAllF op cl tpl fuel t := rfl

lemma substAllF_nil {op cl : List Char} {tpl : List TplItem} (hop : op ≠ []) (f : Nat) :
    substAllF op cl tpl f [] = [] := by
  cases f with
  | zero => rfl
  | succ f' =>
    rw [substAllF_succ, isPrefixOf_nil_false hop]
    rfl

lemma substAllF_congr {op cl : List Char} {tpl : List TplItem} (hop : op ≠ []) :
    ∀ f g s, s.length ≤ f → s.length ≤ g →
      substAllF op cl tpl f s = substAllF op cl tpl g s := by
  intro f
  induction f with
  | zero =>
    intro g s hf _
    have hs : s = [] := List.length_eq_zero.mp (Nat.le_zero.mp hf)
    subst hs
    rw [substAllF_nil hop, substAllF_nil hop]
  | succ f' ihf =>
    intro g s hf hg
    cases s with
    | nil => rw [substAllF_nil hop, substAllF_nil hop]
    | cons c t =>
      cases g with
      | zero => simp at hg
      | succ g' =>
        rw [substAllF_succ, substAllF_succ]
        by_cases hp : op.isPrefixOf (c :: t) = true
        · rw [if_pos hp, if_pos hp]
          cases hfc : findClose cl ((c :: t).drop op.length) with
          | none => rfl
          | some p =>
            obtain ⟨a, rest⟩ := p
            have h1 := findClose_len hfc
            have h2 : ((c :: t).drop op.length).length = (c :: t).length - op.length := by
              simp
            have hopl : 1 ≤ op.length := by
              cases op with
              | nil => exact absurd rfl hop
              | cons _ _ => simp
            have hlen : (c :: t).length = t.length + 1 := by simp
            dsimp only
            rw [ihf g' rest (by omega) (by omega)]
        · rw [if_neg hp, if_neg hp]
          dsimp only
          have hft : t.length ≤ f' := by simp at hf; omega
          have hgt : t.length ≤ g' := by simp at hg; omega
          rw [ihf g' t hft hgt]

lemma substAll_eq_fuel {op cl : List Char} {tpl : List TplItem} (hop : op ≠ [])
    {s : List Char} {f : Nat} (hf : s.length ≤ f) :
    substAll op cl tpl s = substAllF op cl tpl f s :=
  substAllF_congr hop s.length f s (Nat.le_refl _) hf

lemma substAll_nil {op cl : List Char} {tpl : List TplItem} :
    substAll op cl tpl [] = [] := rfl

lemma substAll_match {op cl s a rest : List Char} {tpl : List TplItem} (hop : op ≠ [])
    (h1 : op <+: s) (h2 : findClose cl (s.drop op.length) = some (a, rest)) :
    substAll op cl tpl s = expandT tpl (op ++ a ++ cl) ++ substAll op cl tpl rest := by
  cases s with
  | nil => exact absurd ( List.prefix_nil.mp h1) hop
  | cons c t =>
    show substAllF op cl tpl (c :: t).length (c :: t) = _
    rw [List.length_cons, substAllF_succ, if_pos (pfxOf_true.mpr h1), h2]
    dsimp only
    have hopl : 1 ≤ op.length := by
      cases op with
      | nil => exact absurd rfl hop
      | cons _ _ => simp
    have hrest : rest.length ≤ t.length := by
      have hle := findClose_len h2
      have h3 : ((c :: t).drop op.length).length = (c :: t).length - op.length := by simp
      simp at h3 hle ⊢
      omega
    rw [← substAll_eq_fuel hop hrest]

lemma substAll_stuck {op cl s : List Char} {tpl : List TplItem} (hop : op ≠ [])
    (h1 : op <+: s) (h2 : findClose cl (s.drop op.length) = none) :
    substAll op cl tpl s = s := by
  cases s with
  | nil => rfl
  | cons c t =>
    show substAllF op cl tpl (c :: t).length (c :: t) = _
    rw [List.length_cons, substAllF_succ, if_pos (pfxOf_true.mpr h1), h2]

lemma substAll_cons {op cl : List Char} {tpl : List TplItem} {c : Char} {t : List Char}
    (h : ¬ op <+: (c :: t)) :
    substAll op cl tpl (c :: t) = c :: substAll op cl tpl t := by
  have hcond : ¬ op.isPrefixOf (c :: t) = true := fun hc => h (pfxOf_true.mp hc)
  show substAllF op cl tpl (c :: t).length (c :: t) = _
  rw [List.length_cons, substAllF_succ, if_neg hcond]
  rfl

/-! ## Prefix splitting utilities -/

lemma pfx_split {a b X : List Char} (h : a <+: b ++ X) : a <+: b ∨ b <+: a := by
  rcases Nat.le_total a.length b.length with hl | hl
  · left
    have ht := List.prefix_iff_eq_take.mp h
    rw [List.take_append_of_le_length hl] at ht
    rw [ht]
    exact List.take_prefix _ _
  · right
    exact List.prefix_of_prefix_length_le ( List.prefix_append b X) h hl

lemma pfx_cancel {a b c : List Char} (h : a ++ b <+: a ++ c) : b <+: c := by
  obtain ⟨t, ht⟩ := h
  rw [List.append_assoc] at ht
  exact ⟨t, List.append_cancel_left ht⟩

/-! ## Scanning over non-matching chunks -/

lemma notTouch_append {op a b X : List Char} (h1 : notTouch op a (b ++ X))
    (h2 : notTouch op b X) : notTouch op (a ++ b) X := by
  intro j hj hpfx
  by_cases hja : j < a.length
  · apply h1 j hja
    rw [List.drop_append_of_le_length (Nat.le_of_lt hja), List.append_assoc] at hpfx
    exact hpfx
  · have hj2 : j = a.length + (j - a.length) := by omega
    rw [hj2, List.drop_append] at hpfx
    apply h2 (j - a.length) ?_ hpfx
    simp at hj
    omega

lemma substAll_scan {op cl : List Char} {tpl : List TplItem} (hop : op ≠ []) :
    ∀ (c X : List Char), notTouch op c X →
      substAll op cl tpl (c ++ X) = c ++ substAll op cl tpl X := by
  intro c
  induction c with
  | nil => intro X _; simp
  | cons c0 c' ih =>
    intro X h
    have h0 : ¬ op <+: (c0 :: (c' ++ X)) := by
      have := h 0 (by simp)
      simpa using this
    have hnt : notTouch op c' X := by
      intro j hj
      have := h (j + 1) (by simp; omega)
      simpa using this
    rw [List.cons_append, substAll_cons h0, ih X hnt]
    simp

/-! ## A matching block is replaced as a whole -/

lemma substAll_mblock {op cl p X : List Char} {tpl : List TplItem} (hop : op ≠ [])
    (hfc : findClose cl (p ++ (cl ++ X)) = some (p, X)) :
    substAll op cl tpl (op ++ (p ++ (cl ++ X)))
      = expandT tpl (op ++ p ++ cl) ++ substAll op cl tpl X := by
  have h1 : op <+: op ++ (p ++ (cl ++ X)) := List.prefix_append _ _
  have h2 : (op ++ (p ++ (cl ++ X))).drop op.length = p ++ (cl ++ X) := List.drop_left _ _
  rw [substAll_match hop h1 (by rw [h2]; exact hfc)]

/-- For the concrete closing delimiter `"#;`, if the payload does not contain
it then the first occurrence of the delimiter after the payload is the
canonical one. -/
lemma findClose_first {p X : List Char} (h : ¬ closerStr <:+: p) :
    findClose closerStr (p ++ (closerStr ++ X)) = some (p, X) := by
  induction p with
  | nil =>
    show findClose closerStr ('"' :: '#' :: ';' :: X) = some ([], X)
    unfold findClose
    rw [if_pos]
    · simp [closerStr_eq]
    · exact pfxOf_true.mpr ⟨X, rfl⟩
  | cons c p' ih =>
    have hp : ¬ closerStr.isPrefixOf (c :: (p' ++ (closerStr ++ X))) = true := by
      intro hpre
      have hpre2 := pfxOf_true.mp hpre
      rw [closerStr_eq] at hpre2
      rcases List.cons_prefix_cons.mp hpre2 with ⟨hc, hrest⟩
      cases p' with
      | nil =>
        have hrest3 : ('#' : Char) :: [';'] <+: '"' :: ('#' :: (';' :: X)) := hrest
        rcases List.cons_prefix_cons.mp hrest3 with ⟨hbad, _⟩
        exact absurd hbad (by decide)
      | cons d p'' =>
        rcases List.cons_prefix_cons.mp hrest with ⟨hd, hrest2⟩
        cases p'' with
        | nil =>
          have hrest3 : (';' : Char) :: [] <+: '"' :: ('#' :: (';' :: X)) := hrest2
          rcases List.cons_prefix_cons.mp hrest3 with ⟨hbad, _⟩
          exact absurd hbad (by decide)
        | cons e p''' =>
          rcases List.cons_prefix_cons.mp hrest2 with ⟨he, _⟩
          apply h
          refine ⟨[], p''', ?_⟩
          rw [closerStr_eq, ← hc, ← hd, ← he]
          simp
    have hih : ¬ closerStr <:+: p' := fun hin => h ( List.infix_cons hin)
    show findClose closerStr (c :: (p' ++ (closerStr ++ X))) = some (c :: p', X)
    unfold findClose
    rw [if_neg hp, ih hih]

/-! ## Texts with no match are left unchanged -/

lemma substAll_noMatch {op cl : List Char} {tpl : List TplItem} (hop : op ≠ []) :
    ∀ s, ¬ hasMatch op cl s → substAll op cl tpl s = s := by
  intro s
  induction s with
  | nil => intro _; rfl
  | cons c t ih =>
    intro h
    by_cases hp : op <+: (c :: t)
    · cases hfc : findClose cl ((c :: t).drop op.length) with
      | none => exact substAll_stuck hop hp hfc
      | some pr =>
        obtain ⟨a, r⟩ := pr
        exfalso
        apply h
        obtain ⟨u, hu⟩ := hp
        have hu2 : u = (c :: t).drop op.length := by
          rw [← hu, List.drop_left]
        have hsound := findClose_sound hfc
        refine ⟨[], a, r, ?_⟩
        rw [List.nil_append, ← hu, hu2, hsound]
        simp [List.append_assoc]
    · rw [substAll_cons hp, ih ?_]
      intro ⟨pre, a, post, heq⟩
      exact h ⟨c :: pre, a, post, by rw [heq]; simp⟩

/-! ## Concrete non-overlap facts about the three openers and the closer

The openers contain the character `c` only at position 0 and contain no
semicolon, so occurrences of one opener cannot straddle another opener or the
closer.  These are decidable facts about the concrete strings. -/

lemma opener_drop_mismatch :
    ∀ a b : TName, ∀ k, k < (openerOf a).length → 0 < k →
      ¬ ((openerOf a).drop k <+: openerOf b) ∧ ¬ (openerOf b <+: (openerOf a).drop k) := by
  intro a b
  cases a <;> cases b <;> decide

lemma opener_ne_mismatch :
    ∀ a b : TName, a ≠ b → ¬ (openerOf a <+: openerOf b) := by
  intro a b
  cases a <;> cases b <;> decide

lemma closer_not_in_opener :
    ∀ a : TName, ∀ k, k < (openerOf a).length + 1 → ¬ (closerStr <+: (openerOf a).drop k) := by
  intro a
  cases a <;> decide

lemma opener_drop_closer :
    ∀ a : TName, ∀ k, k < (openerOf a).length → 0 < k →
      (openerOf a).drop k <+: closerStr → (openerOf a).drop k = ['"'] := by
  intro a
  cases a <;> decide

lemma closer_drop_opener :
    ∀ a : TName, ∀ j, j < closerStr.length →
      ¬ (openerOf a <+: closerStr.drop j) ∧ ¬ (closerStr.drop j <+: openerOf a) := by
  intro a
  cases a <;> decide

/-! ## The scan does not start a match inside well-formed chunks -/

lemma infix_of_drop_pfx {op t : List Char} {j : Nat} (h : op <+: t.drop j) : op <:+: t :=
  h.isInfix.trans (List.drop_suffix j t).isInfix

lemma nt_text {n m : TName} {t W : List Char} (h : ¬ openerOf n <:+: t) :
    notTouch (openerOf n) t (openerOf m ++ W) := by
  intro j hj hpfx
  rcases pfx_split hpfx with hca | hca
  · exact h (infix_of_drop_pfx hca)
  · obtain ⟨r, hr⟩ := hca
    by_cases hrnil : r = []
    · subst hrnil
      rw [List.append_nil] at hr
      exact h ((hr ▸ (List.drop_suffix j t)).isInfix)
    · have hk : (t.drop j).length < (openerOf n).length := by
        have hlen : (t.drop j).length + r.length = (openerOf n).length := by
          rw [← hr]; simp
        have hrp : 0 < r.length := List.length_pos.mpr hrnil
        omega
      have hkpos : 0 < (t.drop j).length := by
        simp
        omega
      have hrdef : r = (openerOf n).drop (t.drop j).length := by
        rw [← hr, List.drop_left]
      have hr2 : r <+: openerOf m ++ W := by
        apply pfx_cancel (a := t.drop j)
        rw [hr]
        exact hpfx
      rcases pfx_split hr2 with h1 | h1
      · exact (opener_drop_mismatch n m (t.drop j).length hk hkpos).1 (hrdef ▸ h1)
      · exact (opener_drop_mismatch n m (t.drop j).length hk hkpos).2 (hrdef ▸ h1)

lemma nt_text_end {n : TName} {t : List Char} (h : ¬ openerOf n <:+: t) :
    notTouch (openerOf n) t [] := by
  intro j hj hpfx
  rw [List.append_nil] at hpfx
  exact h (infix_of_drop_pfx hpfx)

lemma nt_opener {n m : TName} (hne : m ≠ n) (W : List Char) :
    notTouch (openerOf n) (openerOf m) W := by
  intro j hj hpfx
  rcases pfx_split hpfx with hca | hca
  · rcases Nat.eq_zero_or_pos j with hj0 | hjpos
    · subst hj0
      simp only [List.drop_zero] at hca
      exact opener_ne_mismatch n m (Ne.symm hne) hca
    · exact (opener_drop_mismatch m n j hj hjpos).2 hca
  · rcases Nat.eq_zero_or_pos j with hj0 | hjpos
    · subst hj0
      simp only [List.drop_zero] at hca
      exact opener_ne_mismatch m n hne hca
    · exact (opener_drop_mismatch m n j hj hjpos).1 hca

lemma nt_payload {n : TName} {p W : List Char} (h : ¬ openerOf n <:+: (p ++ ['"'])) :
    notTouch (openerOf n) p (closerStr ++ W) := by
  intro j hj hpfx
  have hpin : ¬ openerOf n <:+: p := fun hin =>
    h (hin.trans ( List.prefix_append p ['"']).isInfix)
  rcases pfx_split hpfx with hca | hca
  · exact hpin (infix_of_drop_pfx hca)
  · obtain ⟨r, hr⟩ := hca
    by_cases hrnil : r = []
    · subst hrnil
      rw [List.append_nil] at hr
      exact hpin ((hr ▸ (List.drop_suffix j p)).isInfix)
    · have hk : (p.drop j).length < (openerOf n).length := by
        have hlen : (p.drop j).length + r.length = (openerOf n).length := by
          rw [← hr]; simp
        have hrp : 0 < r.length := List.length_pos.mpr hrnil
        omega
      have hkpos : 0 < (p.drop j).length := by
        simp
        omega
      have hrdef : r = (openerOf n).drop (p.drop j).length := by
        rw [← hr, List.drop_left]
      have hr2 : r <+: closerStr ++ W := by
        apply pfx_cancel (a := p.drop j)
        rw [hr]
        exact hpfx
      rcases pfx_split hr2 with h1 | h1
      · have hq : (openerOf n).drop (p.drop j).length = ['"'] :=
          opener_drop_closer n (p.drop j).length hk hkpos (hrdef ▸ h1)
        apply h
        have hop2 : openerOf n = p.drop j ++ ['"'] := by
          rw [← hr, hrdef, hq]
        have hsfx : p.drop j ++ ['"'] <:+ p ++ ['"'] := by
          obtain ⟨u, hu⟩ := List.drop_suffix j p
          exact ⟨u, by rw [← List.append_assoc, hu]⟩
        rw [hop2]
        exact hsfx.isInfix
      · exact closer_not_in_opener n (p.drop j).length (by omega) (hrdef ▸ h1)

lemma nt_closer {n : TName} (W : List Char) : notTouch (openerOf n) closerStr W := by
  intro j hj hpfx
  rcases pfx_split hpfx with hca | hca
  · exact (closer_drop_opener n j hj).1 hca
  · exact (closer_drop_opener n j hj).2 hca

lemma noOpeners_all {l : List Char} (h : noOpeners l) : ∀ n : TName, ¬ openerOf n <:+: l := by
  intro n
  cases n
  · exact h.1
  · exact h.2.1
  · exact h.2.2

lemma expandT_const (s m : List Char) : expandT (constTpl s) m = s := by
  induction s with
  | nil => rfl
  | cons c s' ih => simp [constTpl, expandT] at ih ⊢; exact ih

/-- The scan for name `n` over a well-formed structured document replaces
exactly the payloads of the declarations named `n`. -/
lemma substAll_render (n : TName) (p : List Char) :
    ∀ (es : List DocEntry) (tf : List Char), WFdoc es tf →
      substAll (openerOf n) closerStr (constTpl (replString n p)) (renderEntries es tf)
        = renderEntries (mapN n p es) tf := by
  intro es
  induction es with
  | nil =>
    intro tf hwf
    show substAll _ _ _ tf = tf
    apply substAll_noMatch (openerOf_ne_nil n)
    intro ⟨pre, a, post, heq⟩
    apply noOpeners_all hwf.2 n
    exact ⟨pre, a ++ closerStr ++ post, by rw [heq]; simp [List.append_assoc]⟩
  | cons e es' ih =>
    intro tf hwf
    have hwe : WFentry e := hwf.1 e (List.mem_cons_self e es')
    have hwf' : WFdoc es' tf := ⟨fun x hx => hwf.1 x (List.mem_cons_of_mem e hx), hwf.2⟩
    show substAll _ _ _
        (e.txt ++ (openerOf e.name ++ (e.payload ++ (closerStr ++ renderEntries es' tf))))
      = renderEntries (mapN n p (e :: es')) tf
    rw [substAll_scan (openerOf_ne_nil n) e.txt _
      (nt_text (noOpeners_all hwe.1 n))]
    by_cases hm : e.name = n
    · rw [hm]
      rw [substAll_mblock (openerOf_ne_nil n) (findClose_first hwe.2.2)]
      rw [expandT_const]
      rw [ih tf hwf']
      show e.txt ++ (replString n p ++ renderEntries (mapN n p es') tf) = _
      have hmap : mapN n p (e :: es')
          = { e with payload := p } :: mapN n p es' := by
        simp [mapN, hm]
      rw [hmap]
      simp [renderEntries, replString, hm, List.append_assoc]
    · have hnt : notTouch (openerOf n)
          (openerOf e.name ++ (e.payload ++ closerStr)) (renderEntries es' tf) := by
        have h1 : notTouch (openerOf n) (openerOf e.name)
            ((e.payload ++ closerStr) ++ renderEntries es' tf) := nt_opener hm _
        have h2 : notTouch (openerOf n) (e.payload ++ closerStr) (renderEntries es' tf) := by
          apply notTouch_append
          · exact nt_payload (noOpeners_all hwe.2.1 n)
          · exact nt_closer _
        exact notTouch_append h1 h2
      have hre : openerOf e.name ++ (e.payload ++ (closerStr ++ renderEntries es' tf))
          = (openerOf e.name ++ (e.payload ++ closerStr)) ++ renderEntries es' tf := by
        simp [List.append_assoc]
      rw [hre, substAll_scan (openerOf_ne_nil n) _ _ hnt, ih tf hwf']
      have hmap : mapN n p (e :: es') = e :: mapN n p es' := by
        simp [mapN, hm]
      rw [hmap]
      show _ = e.txt ++ (openerOf e.name ++ (e.payload ++ (closerStr ++ renderEntries (mapN n p es') tf)))
      simp [List.append_assoc]

/-! ## Replacement strings without backslashes compile to constant templates -/

lemma parseTemplateF_noBS :
    ∀ (fuel : Nat) (s : List Char), (∀ c ∈ s, c ≠ '\\') → s.length ≤ fuel →
      parseTemplateF fuel s = some (s.map TplItem.ch) := by
  intro fuel
  induction fuel with
  | zero =>
    intro s h hl
    cases s with
    | nil => rfl
    | cons c t => simp at hl
  | succ f ih =>
    intro s h hl
    cases s with
    | nil => rfl
    | cons c t =>
      have hc : c ≠ '\\' := h c (List.mem_cons_self c t)
      show parseTemplateF (f + 1) (c :: t) = _
      simp only [parseTemplateF]
      rw [if_neg hc,
        ih t (fun x hx => h x (List.mem_cons_of_mem c hx)) (by simp at hl; omega)]
      simp

lemma parseTemplate_noBS {s : List Char} (h : ∀ c ∈ s, c ≠ '\\') :
    parseTemplate s = some (constTpl s) :=
  parseTemplateF_noBS s.length s h (Nat.le_refl _)

lemma opener_noBS : ∀ n : TName, ∀ c ∈ openerOf n, c ≠ '\\' := by
  intro n
  cases n <;> decide

lemma closer_noBS : ∀ c ∈ closerStr, c ≠ '\\' := by decide

lemma replString_noBS {n : TName} {tmpl : List Char} (h : ∀ c ∈ tmpl, c ≠ '\\') :
    ∀ c ∈ replString n tmpl, c ≠ '\\' := by
  intro c hc
  simp only [replString, List.mem_append] at hc
  rcases hc with (h1 | h1) | h1
  · exact opener_noBS n c h1
  · exact h c h1
  · exact closer_noBS c h1

lemma applyTemplate_noBS {n : TName} {tmpl content : List Char}
    (h : ∀ c ∈ tmpl, c ≠ '\\') :
    applyTemplate n tmpl content
      = some (substAll (openerOf n) closerStr (constTpl (replString n tmpl)) content) := by
  unfold applyTemplate
  rw [parseTemplate_noBS (replString_noBS h)]

/-! ## Shape of a successful and of an aborted run -/

lemma runScript_success {fs : String → Option (List Char)} {b t w cli c1 c2 c3 : List Char}
    (hb : fs basicPath = some b) (ht : fs timelockPath = some t)
    (hw : fs weightedPath = some w) (hc : fs targetPath = some cli)
    (h1 : applyTemplate TName.basic b cli = some c1)
    (h2 : applyTemplate TName.timelock t c1 = some c2)
    (h3 : applyTemplate TName.weighted w c2 = some c3) :
    runScript fs =
      ([Event.readEv basicPath true, Event.readEv timelockPath true,
        Event.readEv weightedPath true, Event.readEv targetPath true,
        Event.writeEv targetPath c3,
        Event.printEv successMsg,
        Event.printEv (reportLine "Basic" b.length),
        Event.printEv (reportLine "Timelock" t.length),
        Event.printEv (reportLine "Weighted" w.length)],
       updateFS fs targetPath c3) := by
  unfold runScript
  rw [hb, ht, hw, hc]
  dsimp only
  rw [h1]
  dsimp only
  rw [h2]
  dsimp only
  rw [h3]

lemma runScript_abort_shape {fs : String → Option (List Char)}
    (h : fs basicPath = none ∨ fs timelockPath = none ∨ fs weightedPath = none ∨
      fs targetPath = none) :
    (runScript fs).2 = fs ∧ ∀ e ∈ (runScript fs).1, ∃ pa ok, e = Event.readEv pa ok := by
  cases hb : fs basicPath with
  | none =>
    unfold runScript
    rw [hb]
    refine ⟨rfl, ?_⟩
    intro e he
    simp at he
    exact ⟨basicPath, false, he⟩
  | some b =>
    cases ht : fs timelockPath with
    | none =>
      unfold runScript
      rw [hb, ht]
      refine ⟨rfl, ?_⟩
      intro e he
      simp at he
      rcases he with he | he
      · exact ⟨basicPath, true, he⟩
      · exact ⟨timelockPath, false, he⟩
    | some t =>
      cases hw : fs weightedPath with
      | none =>
        unfold runScript
        rw [hb, ht, hw]
        refine ⟨rfl, ?_⟩
        intro e he
        simp at he
        rcases he with he | he | he
        · exact ⟨basicPath, true, he⟩
        · exact ⟨timelockPath, true, he⟩
        · exact ⟨weightedPath, false, he⟩
      | some w =>
        cases hc : fs targetPath with
        | none =>
          unfold runScript
          rw [hb, ht, hw, hc]
          refine ⟨rfl, ?_⟩
          intro e he
          simp at he
          rcases he with he | he | he | he
          · exact ⟨basicPath, true, he⟩
          · exact ⟨timelockPath, true, he⟩
          · exact ⟨weightedPath, true, he⟩
          · exact ⟨targetPath, false, he⟩
        | some cli =>
          exfalso
          rcases h with h4 | h4 | h4 | h4
          · rw [h4] at hb; exact Option.noConfusion hb
          · rw [h4] at ht; exact Option.noConfusion ht
          · rw [h4] at hw; exact Option.noConfusion hw
          · rw [h4] at hc; exact Option.noConfusion hc

/-- Also an `re.error` during one of the substitutions aborts before any
write: if the run did not reach the success branch the file system is
untouched and only read events are emitted. -/
lemma runScript_abort_apply {fs : String → Option (List Char)} {b t w cli : List Char}
    (hb : fs basicPath = some b) (ht : fs timelockPath = some t)
    (hw : fs weightedPath = some w) (hc : fs targetPath = some cli)
    (h : applyTemplate TName.basic b cli = none ∨
      (∀ c1, applyTemplate TName.basic b cli = some c1 →
        applyTemplate TName.timelock t c1 = none) ∨
      (∀ c1 c2, applyTemplate TName.basic b cli = some c1 →
        applyTemplate TName.timelock t c1 = some c2 →
        applyTemplate TName.weighted w c2 = none)) :
    (runScript fs).2 = fs ∧ ∀ e ∈ (runScript fs).1, ∃ pa ok, e = Event.readEv pa ok := by
  unfold runScript
  rw [hb, ht, hw, hc]
  dsimp only
  cases h1 : applyTemplate TName.basic b cli with
  | none =>
    dsimp only
    refine ⟨rfl, ?_⟩
    intro e he
    simp at he
    rcases he with he | he | he | he
    · exact ⟨basicPath, true, he⟩
    · exact ⟨timelockPath, true, he⟩
    · exact ⟨weightedPath, true, he⟩
    · exact ⟨targetPath, true, he⟩
  | some c1 =>
    dsimp only
    cases h2 : applyTemplate TName.timelock t c1 with
    | none =>
      dsimp only
      refine ⟨rfl, ?_⟩
      intro e he
      simp at he
      rcases he with he | he | he | he
      · exact ⟨basicPath, true, he⟩
      · exact ⟨timelockPath, true, he⟩
      · exact ⟨weightedPath, true, he⟩
      · exact ⟨targetPath, true, he⟩
    | some c2 =>
      dsimp only
      cases h3 : applyTemplate TName.weighted w c2 with
      | none =>
        dsimp only
        refine ⟨rfl, ?_⟩
        intro e he
        simp at he
        rcases he with he | he | he | he
        · exact ⟨basicPath, true, he⟩
        · exact ⟨timelockPath, true, he⟩
        · exact ⟨weightedPath, true, he⟩
        · exact ⟨targetPath, true, he⟩
      | some c3 =>
        exfalso
        rcases h with h4 | h4 | h4
        · rw [h4] at h1; exact Option.noConfusion h1
        · rw [h4 c1 h1] at h2; exact Option.noConfusion h2
        · rw [h4 c1 c2 h1 h2] at h3; exact Option.noConfusion h3

/-! ## Algebra of payload replacement -/

lemma mapN_idem (n : TName) (p : List Char) (es : List DocEntry) :
    mapN n p (mapN n p es) = mapN n p es := by
  unfold mapN
  rw [List.map_map]
  apply List.map_congr_left
  intro e _
  by_cases hm : e.name = n
  · simp [Function.comp, hm]
  · simp [Function.comp, hm]

lemma mapN_comm {n m : TName} (hne : n ≠ m) (p q : List Char) (es : List DocEntry) :
    mapN n p (mapN m q es) = mapN m q (mapN n p es) := by
  unfold mapN
  rw [List.map_map, List.map_map]
  apply List.map_congr_left
  intro e _
  by_cases h1 : e.name = n
  · have h2 : e.name ≠ m := fun hx => hne (h1 ▸ hx ▸ rfl)
    simp [Function.comp, h1, h2, hne]
  · by_cases h2 : e.name = m
    · simp [Function.comp, h1, h2, Ne.symm hne]
    · simp [Function.comp, h1, h2]

lemma WFdoc_mapN {es : List DocEntry} {tf : List Char} {n : TName} {p : List Char}
    (h : WFdoc es tf) (hp1 : noOpeners (p ++ ['"'])) (hp2 : ¬ closerStr <:+: p) :
    WFdoc (mapN n p es) tf := by
  refine ⟨?_, h.2⟩
  intro e he
  unfold mapN at he
  rcases List.mem_map.mp he with ⟨e0, he0, rfl⟩
  have hwe0 := h.1 e0 he0
  by_cases hm : e0.name = n
  · rw [if_pos hm]
    exact ⟨hwe0.1, hp1, hp2⟩
  · rw [if_neg hm]
    exact hwe0

/-! ## Claim theorems -/

/-- C3: if reading any of the three template files or the target file fails,
the run emits no write event (it aborts before the target file is opened for
writing) and the target file's content is unchanged. -/
theorem C3_read_failure_leaves_target (fs : String → Option (List Char))
    (h : fs basicPath = none ∨ fs timelockPath = none ∨ fs weightedPath = none ∨
      fs targetPath = none) :
    (∀ p c, Event.writeEv p c ∉ (runScript fs).1) ∧
      (runScript fs).2 targetPath = fs targetPath := by
  obtain ⟨h2, h1⟩ := runScript_abort_shape h
  refine ⟨?_, by rw [h2]⟩
  intro p c hmem
  rcases h1 _ hmem with ⟨pa, ok, heq⟩
  exact Event.noConfusion heq

theorem C3_read_failure_leaves_target_witness :
    ((fun _ => (none : Option (List Char))) basicPath = none) ∧
      Event.writeEv targetPath [] ∉ (runScript (fun _ => none)).1 ∧
      (runScript (fun _ => (none : Option (List Char)))).2 targetPath
        = (fun _ => (none : Option (List Char))) targetPath :=
  ⟨rfl,
    (C3_read_failure_leaves_target (fun _ => none) (Or.inl rfl)).1 targetPath [],
    (C3_read_failure_leaves_target (fun _ => none) (Or.inl rfl)).2⟩

/-- C7: in every run, no report line is printed before the target file has
been written; in particular the script never reports success without having
performed the write. -/
theorem C7_write_precedes_report (fs : String → Option (List Char)) :
    noPrintBeforeWrite (runScript fs).1 = true ∧
      ∀ line, Event.printEv line ∈ (runScript fs).1 →
        ∃ c, Event.writeEv targetPath c ∈ (runScript fs).1 := by
  cases hb : fs basicPath with
  | none =>
    unfold runScript
    rw [hb]
    exact ⟨rfl, by intro line hmem; simp at hmem⟩
  | some b =>
    cases ht : fs timelockPath with
    | none =>
      unfold runScript
      rw [hb, ht]
      exact ⟨rfl, by intro line hmem; simp at hmem⟩
    | some t =>
      cases hw : fs weightedPath with
      | none =>
        unfold runScript
        rw [hb, ht, hw]
        exact ⟨rfl, by intro line hmem; simp at hmem⟩
      | some w =>
        cases hc : fs targetPath with
        | none =>
          unfold runScript
          rw [hb, ht, hw, hc]
          exact ⟨rfl, by intro line hmem; simp at hmem⟩
        | some cli =>
          unfold runScript
          rw [hb, ht, hw, hc]
          dsimp only
          cases h1 : applyTemplate TName.basic b cli with
          | none =>
            exact ⟨rfl, by intro line hmem; simp at hmem⟩
          | some c1 =>
            dsimp only
            cases h2 : applyTemplate TName.timelock t c1 with
            | none =>
              exact ⟨rfl, by intro line hmem; simp at hmem⟩
            | some c2 =>
              dsimp only
              cases h3 : applyTemplate TName.weighted w c2 with
              | none =>
                exact ⟨rfl, by intro line hmem; simp at hmem⟩
              | some c3 =>
                refine ⟨rfl, ?_⟩
                intro line _
                exact ⟨c3, by simp⟩

/-- C5: if the target text contains no region matching a name's pattern, the
substitution for that name leaves the text exactly unchanged, and the later
substitutions therefore operate on the very same text. -/
theorem C5_no_region_no_op (n : TName) (tpl : List TplItem) (s : List Char)
    (h : ¬ hasMatch (openerOf n) closerStr s) :
    substAll (openerOf n) closerStr tpl s = s ∧
      ∀ (m : TName) (tpl2 : List TplItem),
        substAll (openerOf m) closerStr tpl2 (substAll (openerOf n) closerStr tpl s)
          = substAll (openerOf m) closerStr tpl2 s := by
  have h1 : substAll (openerOf n) closerStr tpl s = s :=
    substAll_noMatch (openerOf_ne_nil n) s h
  exact ⟨h1, fun m tpl2 => by rw [h1]⟩

theorem C5_no_region_no_op_witness :
    (¬ hasMatch (openerOf TName.basic) closerStr ("no declarations here").toList) ∧
      substAll (openerOf TName.basic) closerStr [] ("no declarations here").toList
        = ("no declarations here").toList := by
  have hnm : ¬ hasMatch (openerOf TName.basic) closerStr ("no declarations here").toList := by
    rintro ⟨pre, a, post, heq⟩
    have hl := congrArg List.length heq
    have h36 : (openerOf TName.basic).length = 36 := by decide
    have h3 : closerStr.length = 3 := by decide
    have h20 : (("no declarations here").toList : List Char).length = 20 := by decide
    simp [List.length_append, h36, h3, h20] at hl
    omega
  exact ⟨hnm, (C5_no_region_no_op TName.basic [] _ hnm).1⟩

/-- C8: a matched region extends from the opener to the earliest following
occurrence of the closing delimiter `"#;`; everything after that first
delimiter (for example the rest of a payload that itself contains `"#;`) is
left to the continuation of the scan. -/
theorem C8_match_ends_at_earliest_closer (n : TName) (tpl : List TplItem) (a X : List Char)
    (h : ¬ closerStr <:+: a) :
    substAll (openerOf n) closerStr tpl (openerOf n ++ (a ++ (closerStr ++ X)))
      = expandT tpl (openerOf n ++ a ++ closerStr)
          ++ substAll (openerOf n) closerStr tpl X :=
  substAll_mblock (openerOf_ne_nil n) (findClose_first h)

theorem C8_match_ends_at_earliest_closer_witness :
    (¬ closerStr <:+: ("OLD").toList) ∧
      substAll (openerOf TName.basic) closerStr
          (constTpl (replString TName.basic ['N']))
          (openerOf TName.basic ++ (("OLD").toList ++ (closerStr ++ ("B\"#;").toList)))
        = expandT (constTpl (replString TName.basic ['N']))
              (openerOf TName.basic ++ ("OLD").toList ++ closerStr)
            ++ substAll (openerOf TName.basic) closerStr
              (constTpl (replString TName.basic ['N'])) (("B\"#;").toList) :=
  ⟨by decide,
    C8_match_ends_at_earliest_closer TName.basic
      (constTpl (replString TName.basic ['N'])) (("OLD").toList) (("B\"#;").toList)
      (by decide)⟩

/-- C9: with the default count, every matching region of a name is replaced,
not only the first one, and all of them receive the same new payload. -/
theorem C9_replaces_every_region (n : TName) (p a b mid X : List Char)
    (ha : ¬ closerStr <:+: a) (hb : ¬ closerStr <:+: b)
    (hmid : notTouch (openerOf n) mid (openerOf n ++ (b ++ (closerStr ++ X)))) :
    substAll (openerOf n) closerStr (constTpl (replString n p))
        (openerOf n ++ (a ++ (closerStr ++
          (mid ++ (openerOf n ++ (b ++ (closerStr ++ X)))))))
      = replString n p ++ (mid ++ (replString n p ++
          substAll (openerOf n) closerStr (constTpl (replString n p)) X)) := by
  rw [substAll_mblock (openerOf_ne_nil n) (findClose_first ha)]
  rw [substAll_scan (openerOf_ne_nil n) mid _ hmid]
  rw [substAll_mblock (openerOf_ne_nil n) (findClose_first hb)]
  rw [expandT_const, expandT_const]

theorem C9_replaces_every_region_witness :
    (notTouch (openerOf TName.basic) (" mid ").toList
        (openerOf TName.basic ++ (("O2").toList ++ (closerStr ++ ("tail").toList)))) ∧
      substAll (openerOf TName.basic) closerStr
          (constTpl (replString TName.basic ("NEW").toList))
          (openerOf TName.basic ++ (("O1").toList ++ (closerStr ++
            ((" mid ").toList ++ (openerOf TName.basic ++ (("O2").toList ++
              (closerStr ++ ("tail").toList)))))))
        = replString TName.basic ("NEW").toList ++ ((" mid ").toList ++
            (replString TName.basic ("NEW").toList ++
              substAll (openerOf TName.basic) closerStr
                (constTpl (replString TName.basic ("NEW").toList)) (("tail").toList))) :=
  ⟨by decide,
    C9_replaces_every_region TName.basic (("NEW").toList) (("O1").toList) (("O2").toList)
      ((" mid ").toList) (("tail").toList) (by decide) (by decide) (by decide)⟩

/-- C10: the event trace (hence the report) and the final target content are
a function of exactly the four input file contents: two file systems that
agree on the four fixed paths produce identical traces and identical final
target contents. -/
theorem C10_deterministic (fs1 fs2 : String → Option (List Char))
    (hb : fs1 basicPath = fs2 basicPath) (ht : fs1 timelockPath = fs2 timelockPath)
    (hw : fs1 weightedPath = fs2 weightedPath) (hc : fs1 targetPath = fs2 targetPath) :
    (runScript fs1).1 = (runScript fs2).1 ∧
      (runScript fs1).2 targetPath = (runScript fs2).2 targetPath := by
  unfold runScript
  rw [hb, ht, hw, hc]
  cases h1 : fs2 basicPath with
  | none => exact ⟨rfl, hc⟩
  | some b =>
    dsimp only
    cases h2 : fs2 timelockPath with
    | none => exact ⟨rfl, hc⟩
    | some t =>
      dsimp only
      cases h3 : fs2 weightedPath with
      | none => exact ⟨rfl, hc⟩
      | some w =>
        dsimp only
        cases h4 : fs2 targetPath with
        | none => exact ⟨rfl, hc⟩
        | some cli =>
          dsimp only
          cases h5 : applyTemplate TName.basic b cli with
          | none => exact ⟨rfl, hc⟩
          | some c1 =>
            dsimp only
            cases h6 : applyTemplate TName.timelock t c1 with
            | none => exact ⟨rfl, hc⟩
            | some c2 =>
              dsimp only
              cases h7 : applyTemplate TName.weighted w c2 with
              | none => exact ⟨rfl, hc⟩
              | some c3 =>
                refine ⟨rfl, ?_⟩
                simp [updateFS]

theorem C10_deterministic_witness :
    (fsOK basicPath = fsOK basicPath) ∧
      (runScript fsOK).1 = (runScript fsOK).1 ∧
      (runScript fsOK).2 targetPath = (runScript fsOK).2 targetPath :=
  ⟨rfl, C10_deterministic fsOK fsOK rfl rfl rfl rfl⟩

/-- C4: in a successful run, the three report lines carry exactly the length
of each freshly read template file content. -/
theorem C4_report_counts (fs : String → Option (List Char)) (b t w cli : List Char)
    (hb : fs basicPath = some b) (ht : fs timelockPath = some t)
    (hw : fs weightedPath = some w) (hc : fs targetPath = some cli)
    (hnb : ∀ c ∈ b, c ≠ '\\') (hnt : ∀ c ∈ t, c ≠ '\\') (hnw : ∀ c ∈ w, c ≠ '\\') :
    Event.printEv (reportLine "Basic" b.length) ∈ (runScript fs).1 ∧
      Event.printEv (reportLine "Timelock" t.length) ∈ (runScript fs).1 ∧
      Event.printEv (reportLine "Weighted" w.length) ∈ (runScript fs).1 := by
  rw [runScript_success hb ht hw hc (applyTemplate_noBS hnb) (applyTemplate_noBS hnt)
    (applyTemplate_noBS hnw)]
  refine ⟨?_, ?_, ?_⟩ <;> simp

theorem C4_report_counts_witness :
    (fsOK basicPath = some ['F', 'B']) ∧
      Event.printEv (reportLine "Basic" (['F', 'B'] : List Char).length)
        ∈ (runScript fsOK).1 ∧
      Event.printEv (reportLine "Timelock" (['F', 'T'] : List Char).length)
        ∈ (runScript fsOK).1 ∧
      Event.printEv (reportLine "Weighted" (['F', 'W'] : List Char).length)
        ∈ (runScript fsOK).1 :=
  ⟨rfl,
    C4_report_counts fsOK ['F', 'B'] ['F', 'T'] ['F', 'W'] docOK rfl rfl rfl rfl
      (by decide) (by decide) (by decide)⟩

/-- C6: the final target content is the three substitutions applied in the
fixed order basic, timelock, weighted, each to the previous output, and the
run performs exactly one write, of that content, to the target path. -/
theorem C6_sequential_then_single_write (fs : String → Option (List Char))
    (b t w cli : List Char)
    (hb : fs basicPath = some b) (ht : fs timelockPath = some t)
    (hw : fs weightedPath = some w) (hc : fs targetPath = some cli)
    (hnb : ∀ c ∈ b, c ≠ '\\') (hnt : ∀ c ∈ t, c ≠ '\\') (hnw : ∀ c ∈ w, c ≠ '\\') :
    (runScript fs).2 targetPath
        = some (substAll (openerOf TName.weighted) closerStr
            (constTpl (replString TName.weighted w))
            (substAll (openerOf TName.timelock) closerStr
              (constTpl (replString TName.timelock t))
              (substAll (openerOf TName.basic) closerStr
                (constTpl (replString TName.basic b)) cli))) ∧
      (runScript fs).1.filter isWriteEv
        = [Event.writeEv targetPath
            (substAll (openerOf TName.weighted) closerStr
              (constTpl (replString TName.weighted w))
              (substAll (openerOf TName.timelock) closerStr
                (constTpl (replString TName.timelock t))
                (substAll (openerOf TName.basic) closerStr
                  (constTpl (replString TName.basic b)) cli)))] := by
  rw [runScript_success hb ht hw hc (applyTemplate_noBS hnb) (applyTemplate_noBS hnt)
    (applyTemplate_noBS hnw)]
  constructor
  · simp [updateFS]
  · rfl

theorem C6_sequential_then_single_write_witness :
    (fsOK targetPath = some docOK) ∧
      (runScript fsOK).2 targetPath
          = some (substAll (openerOf TName.weighted) closerStr
              (constTpl (replString TName.weighted ['F', 'W']))
              (substAll (openerOf TName.timelock) closerStr
                (constTpl (replString TName.timelock ['F', 'T']))
                (substAll (openerOf TName.basic) closerStr
                  (constTpl (replString TName.basic ['F', 'B'])) docOK))) :=
  ⟨rfl,
    (C6_sequential_then_single_write fsOK ['F', 'B'] ['F', 'T'] ['F', 'W'] docOK
      rfl rfl rfl rfl (by decide) (by decide) (by decide)).1⟩

/-- C1 (failing input): with the basic template file holding the two
characters `\` `n`, the run succeeds and writes a target whose region payload
is a single newline character — `re.sub` escape-processes the replacement —
instead of the verbatim two-character template content. -/
theorem C1_payload_not_verbatim_on_backslash :
    (runScript fsC1).2 targetPath
        = some (("const BASIC_TEMPLATE_LIB: &str = r#\"\n\"#;").toList) ∧
      (("const BASIC_TEMPLATE_LIB: &str = r#\"\n\"#;").toList : List Char)
        ≠ openerOf TName.basic ++ ['\\', 'n'] ++ closerStr := by
  constructor
  · decide
  · decide

/-- C2 (counterexample): with a basic template that contains the closing
delimiter `"#;`, the second run produces a different target content than the
first run. -/
theorem C2_not_idempotent_counterexample :
    (runScript ((runScript fsC2).2)).2 targetPath ≠ (runScript fsC2).2 targetPath := by
  decide

/-- C2 (amended): running the embedder a second time on the output of the
first run yields the same target content, provided the target document is
literal text plus well-formed declaration regions and each template content
contains no backslash, no occurrence of `"#;`, and no opener string (also
none completed by the quote that follows the payload). -/
theorem C2_idempotent_on_wf_docs
    (fs : String → Option (List Char)) (tb tt2 tw : List Char)
    (es : List DocEntry) (tf : List Char)
    (hb : fs basicPath = some tb) (ht : fs timelockPath = some tt2)
    (hw : fs weightedPath = some tw) (hc : fs targetPath = some (renderEntries es tf))
    (hwf : WFdoc es tf)
    (hnb : ∀ c ∈ tb, c ≠ '\\') (hnt : ∀ c ∈ tt2, c ≠ '\\') (hnw : ∀ c ∈ tw, c ≠ '\\')
    (hob : noOpeners (tb ++ ['"'])) (hot : noOpeners (tt2 ++ ['"']))
    (how2 : noOpeners (tw ++ ['"']))
    (hcb : ¬ closerStr <:+: tb) (hct : ¬ closerStr <:+: tt2)
    (hcw : ¬ closerStr <:+: tw) :
    (runScript ((runScript fs).2)).2 targetPath = (runScript fs).2 targetPath := by
  set es1 := mapN TName.basic tb es with hes1
  set es2 := mapN TName.timelock tt2 es1 with hes2
  set es3 := mapN TName.weighted tw es2 with hes3
  have hwf1 : WFdoc es1 tf := WFdoc_mapN hwf hob hcb
  have hwf2 : WFdoc es2 tf := WFdoc_mapN hwf1 hot hct
  have hwf3 : WFdoc es3 tf := WFdoc_mapN hwf2 how2 hcw
  have h1 : applyTemplate TName.basic tb (renderEntries es tf)
      = some (renderEntries es1 tf) := by
    rw [applyTemplate_noBS hnb, substAll_render TName.basic tb es tf hwf]
  have h2 : applyTemplate TName.timelock tt2 (renderEntries es1 tf)
      = some (renderEntries es2 tf) := by
    rw [applyTemplate_noBS hnt, substAll_render TName.timelock tt2 es1 tf hwf1]
  have h3 : applyTemplate TName.weighted tw (renderEntries es2 tf)
      = some (renderEntries es3 tf) := by
    rw [applyTemplate_noBS hnw, substAll_render TName.weighted tw es2 tf hwf2]
  have hrun1 := runScript_success hb ht hw hc h1 h2 h3
  have hfs2 : (runScript fs).2 = updateFS fs targetPath (renderEntries es3 tf) := by
    rw [hrun1]
  have hb2 : (runScript fs).2 basicPath = some tb := by
    rw [hfs2]
    unfold updateFS
    rw [if_neg (by decide : ¬ basicPath = targetPath)]
    exact hb
  have ht2 : (runScript fs).2 timelockPath = some tt2 := by
    rw [hfs2]
    unfold updateFS
    rw [if_neg (by decide : ¬ timelockPath = targetPath)]
    exact ht
  have hw2 : (runScript fs).2 weightedPath = some tw := by
    rw [hfs2]
    unfold updateFS
    rw [if_neg (by decide : ¬ weightedPath = targetPath)]
    exact hw
  have hc2 : (runScript fs).2 targetPath = some (renderEntries es3 tf) := by
    rw [hfs2]
    unfold updateFS
    rw [if_pos rfl]
  have hfb : mapN TName.basic tb es3 = es3 := by
    rw [hes3, hes2, hes1]
    rw [mapN_comm (by decide : TName.basic ≠ TName.weighted)]
    rw [mapN_comm (by decide : TName.basic ≠ TName.timelock)]
    rw [mapN_idem]
  have hft : mapN TName.timelock tt2 es3 = es3 := by
    rw [hes3, hes2]
    rw [mapN_comm (by decide : TName.timelock ≠ TName.weighted)]
    rw [mapN_idem]
  have hfw : mapN TName.weighted tw es3 = es3 := by
    rw [hes3, mapN_idem]
  have h1' : applyTemplate TName.basic tb (renderEntries es3 tf)
      = some (renderEntries es3 tf) := by
    rw [applyTemplate_noBS hnb, substAll_render TName.basic tb es3 tf hwf3, hfb]
  have h2' : applyTemplate TName.timelock tt2 (renderEntries es3 tf)
      = some (renderEntries es3 tf) := by
    rw [applyTemplate_noBS hnt, substAll_render TName.timelock tt2 es3 tf hwf3, hft]
  have h3' : applyTemplate TName.weighted tw (renderEntries es3 tf)
      = some (renderEntries es3 tf) := by
    rw [applyTemplate_noBS hnw, substAll_render TName.weighted tw es3 tf hwf3, hfw]
  have hrun2 := runScript_success hb2 ht2 hw2 hc2 h1' h2' h3'
  rw [hrun2, hc2]
  unfold updateFS
  simp

theorem C2_idempotent_on_wf_docs_witness :
    WFdoc esW tfW ∧
      (runScript ((runScript fsW).2)).2 targetPath = (runScript fsW).2 targetPath :=
  ⟨by decide,
    C2_idempotent_on_wf_docs fsW (("NB").toList) (("NT").toList) (("NW").toList) esW tfW
      rfl rfl rfl rfl (by decide) (by decide) (by decide) (by decide) (by decide)
      (by decide) (by decide) (by decide) (by decide) (by decide)⟩
